import Mathlib

/-!
Shallow embedding of the celebi repository (a Django CRUD scaffold with a custom
migration-file synchronization command) and proofs about the behaviour of:

* `app/management/commands/syncmigrate.py` — the `save`, `load` and `initial`
  actions and their helpers (`get_app_migrations_dir`, `get_app_migrations_file`);
* `app/mixin/views.py` — `BasicListModelMixin.paginate`, the `list`/`destroy`
  hook-chain flows, `BasicResponseMixin.set_response` and
  `BasicAuthPermissionViewMixin.dispatch`.

Machine-level conventions: the path separator is modelled as the POSIX "/"
(`os.sep`), file systems are finite association lists from directory paths to
their regular-file names plus an association list from file paths to contents,
and the database table backing `MigrationsHistory` is a list of records in
insertion order.
-/

namespace Celebi

/-- Exception kinds raised by the code paths modelled here. -/
inductive PyExc where
  | nameError
  | typeError
  | valueError
  | fileNotFound
  | multipleObjectsReturned
  deriving DecidableEq, Repr

/-- Characters of a string split at a separator character, with Python
str.split(sep) semantics: the empty string yields one empty segment, and
adjacent separators yield empty segments. -/
def splitCh (sep : Char) : List Char → List (List Char)
  | [] => [[]]
  | c :: rest =>
    if c = sep then [] :: splitCh sep rest
    else
      match splitCh sep rest with
      | [] => [[c]]
      | s :: ss => (c :: s) :: ss

/-- Python s.split(sep) for a one-character separator. -/
def pySplit (s : String) (sep : Char) : List String :=
  (splitCh sep s.data).map String.mk

/-- Python s.split(".")[0]. -/
def firstSeg (s : String) : String :=
  (pySplit s '.').headD ""

/-- Python s.split(".")[-1]. -/
def lastSeg (s : String) : String :=
  (pySplit s '.').getLastD ""

/-- Python f.readlines() on the character list of the file content: split after
each newline character, keeping the terminator; a final segment without a
trailing newline is kept, and the empty content yields no lines. -/
def readlinesCh : List Char → List (List Char)
  | [] => []
  | c :: rest =>
    if c = '\n' then ['\n'] :: readlinesCh rest
    else
      match readlinesCh rest with
      | [] => [[c]]
      | l :: ls => (c :: l) :: ls

/-- Python f.readlines() of a file content string. -/
def readlines (s : String) : List String :=
  (readlinesCh s.data).map String.mk

/-- Whether a path string is absolute (starts with the POSIX separator). -/
def isAbs (s : String) : Bool :=
  match s.data with
  | [] => false
  | c :: _ => c == '/'

/-- Whether a path string ends with the POSIX separator. -/
def endsSep (s : String) : Bool :=
  match s.data.getLast? with
  | some c => c == '/'
  | none => false

/-- Python os.path.join(a, b) for two components on POSIX: an absolute second
component discards the first, otherwise a separator is inserted unless the
first component is empty or already ends with one. -/
def os_path_join (a b : String) : String :=
  if isAbs b then b
  else if a == "" then b
  else if endsSep a then a ++ b
  else a ++ "/" ++ b

/-- Python sep.join(parts). -/
def sepJoin (sep : String) : List String → String
  | [] => ""
  | [s] => s
  | s :: rest => s ++ sep ++ sepJoin sep rest

/-- Concatenation of a list of strings. -/
def strJoin : List String → String
  | [] => ""
  | s :: rest => s ++ strJoin rest

/-- Sequential file.write calls starting from an already-written prefix:
models writing a header followed by each line in order. -/
def writeAll (first : String) (lines : List String) : String :=
  lines.foldl (fun acc l => acc ++ l) first

/-- Lookup in an association list (leftmost binding wins). -/
def alookup {β : Type} : List (String × β) → String → Option β
  | [], _ => none
  | (k, v) :: rest, key => if k == key then some v else alookup rest key

/-- Python dict assignment d[k] = v on an insertion-ordered association list:
an existing key is updated in place, a new key is appended at the end. -/
def upsert {β : Type} : List (String × β) → String → β → List (String × β)
  | [], k, v => [(k, v)]
  | (k0, v0) :: rest, k, v =>
    if k0 == k then (k, v) :: rest else (k0, v0) :: upsert rest k v

/-- File system model: existing directories with the names of the regular
files they directly contain (what the first element of os.walk reports), plus
file contents keyed by full path. -/
structure FS where
  dirs : List (String × List String)
  contents : List (String × String)
  deriving DecidableEq, Repr

/-- Python os.path.exists as used by the command (only queried on directories). -/
def os_path_exists (fs : FS) (p : String) : Bool :=
  (alookup fs.dirs p).isSome

/-- Opening a file for reading and reading its content; a missing file raises. -/
def readFile (fs : FS) (p : String) : Except PyExc String :=
  match alookup fs.contents p with
  | some c => .ok c
  | none => .error .fileNotFound

/-- Opening a file for writing and writing the given content. -/
def writeFile (fs : FS) (p c : String) : FS :=
  { fs with contents := upsert fs.contents p c }

/-- Python os.mkdir: the new directory is empty. -/
def mkdir (fs : FS) (p : String) : FS :=
  { fs with dirs := fs.dirs ++ [(p, [])] }

/-- JSON values as the command uses them: json.dumps is only ever applied to a
list of strings (the file lines) and json.loads only to the stored output of
json.dumps. Serialization of string lists is injective and json.loads inverts
json.dumps, so the model keeps the decoded value inside the stored text. -/
inductive PyJson where
  | arr (items : List String)
  deriving DecidableEq, Repr

/-- Python json.dumps restricted to lists of strings. -/
def json_dumps (lines : List String) : PyJson := .arr lines

/-- Python json.loads on the output of json_dumps. -/
def json_loads : PyJson → List String
  | .arr l => l

/-- Row of the common_migrations_history table (app/models.py,
MigrationsHistory). The audit fields inherited from BasicModel (is_delete,
desc, ctime, mtime) play no role in the synchronization logic and are not
modelled. -/
structure MigRecord where
  app_name : String
  file_name : String
  file_content : PyJson
  deriving DecidableEq, Repr

/-- Django settings as consumed by the command. -/
structure Settings where
  BASE_DIR : String
  INSTALLED_APPS : List String

/-- Loop body of Command.get_app_migrations_dir: a Python dict built by
successive assignments, keyed by the app path. -/
def get_app_migrations_dir_go (base : String) (fs : FS) :
    List String → List (String × String) → List (String × String)
  | [], acc => acc
  | app :: rest, acc =>
    let app_path := sepJoin "/" (pySplit app '.')
    let abs_app_path := os_path_join base app_path
    if os_path_exists fs abs_app_path then
      get_app_migrations_dir_go base fs rest
        (upsert acc app_path (os_path_join abs_app_path "migrations"))
    else
      get_app_migrations_dir_go base fs rest acc

/-- Command.get_app_migrations_dir: app path to migrations directory, for every
installed application whose directory exists. -/
def get_app_migrations_dir (st : Settings) (fs : FS) : List (String × String) :=
  get_app_migrations_dir_go st.BASE_DIR fs st.INSTALLED_APPS []

/-- Command.get_app_migrations_file: a missing directory yields the empty
list; file_list.remove("__init__.py") raises ValueError when no such entry
exists; the remaining loop skips a (now unreachable) second "__init__.py" and
every file whose last dot-separated segment is "pyc", and joins the rest with
the directory path. -/
def get_app_migrations_file (fs : FS) (path : String) : Except PyExc (List String) :=
  match alookup fs.dirs path with
  | none => .ok []
  | some file_list =>
    if "__init__.py" ∈ file_list then
      .ok (((file_list.erase "__init__.py").filter
        (fun file => !(file == "__init__.py" || lastSeg file == "pyc"))).map
        (fun file => os_path_join path file))
    else .error .valueError

/-- Match of a MigrationsHistory row against the (app_name, file_name) filter
used by get_or_create. -/
def keyMatch (app fname : String) (r : MigRecord) : Bool :=
  r.app_name == app && r.file_name == fname

/-- Django MigrationsHistory.objects.get_or_create(app_name=..., file_name=...,
defaults=...): creates the row when no match exists, returns the existing row
untouched when exactly one matches, and raises MultipleObjectsReturned
otherwise. The Bool is the created flag. -/
def get_or_create (db : List MigRecord) (app fname : String) (content : PyJson) :
    Except PyExc (List MigRecord × Bool) :=
  match db.filter (keyMatch app fname) with
  | [] => .ok (db ++ [⟨app, fname, content⟩], true)
  | [_] => .ok (db, false)
  | _ => .error .multipleObjectsReturned

/-- Inner loop of Command.save over the files of one application: read each
file and upsert a row keyed by the app and by file.split(".")[0], where file is
the joined path. An exception aborts the command, keeping rows created so far. -/
def save_files (fs : FS) (app : String) :
    List String → List MigRecord → List MigRecord × Option PyExc
  | [], db => (db, none)
  | file :: rest, db =>
    match readFile fs file with
    | .error e => (db, some e)
    | .ok content =>
      match get_or_create db app (firstSeg file) (json_dumps (readlines content)) with
      | .error e => (db, some e)
      | .ok (db2, _) => save_files fs app rest db2

/-- Outer loop of Command.save over the applications. -/
def save_dirs (fs : FS) :
    List (String × String) → List MigRecord → List MigRecord × Option PyExc
  | [], db => (db, none)
  | (app, path) :: rest, db =>
    match get_app_migrations_file fs path with
    | .error e => (db, some e)
    | .ok files =>
      match save_files fs app files db with
      | (db2, some e) => (db2, some e)
      | (db2, none) => save_dirs fs rest db2

/-- Command.save: the resulting table and the first uncaught exception, if any. -/
def save (st : Settings) (fs : FS) (db : List MigRecord) :
    List MigRecord × Option PyExc :=
  save_dirs fs (get_app_migrations_dir st fs) db

/-- Body of the Command.load loop for one application: create the migrations
directory when absent, truncate-write the package marker, then write every
stored row of the application to os.path.join(path, file_name + ".py") with the
encoding header first. -/
def load_app (db : List MigRecord) (app path : String) (fs : FS) : FS :=
  let fs1 := if os_path_exists fs path then fs else mkdir fs path
  let fs2 := writeFile fs1 (os_path_join path "__init__.py") ""
  (db.filter (fun r => r.app_name == app)).foldl
    (fun acc r =>
      writeFile acc (os_path_join path (r.file_name ++ ".py"))
        (writeAll "# coding:utf-8\n" (json_loads r.file_content))) fs2

/-- Loop of Command.load over the applications. -/
def load_dirs (db : List MigRecord) : List (String × String) → FS → FS
  | [], fs => fs
  | (app, path) :: rest, fs => load_dirs db rest (load_app db app path fs)

/-- Command.load. -/
def load (st : Settings) (fs : FS) (db : List MigRecord) : FS :=
  load_dirs db (get_app_migrations_dir st fs) fs

/-- Combined mutable state the syncmigrate command can touch. -/
structure SyncState where
  fs : FS
  db : List MigRecord

/-- Command.initial: prints the string "initial" and touches nothing else. The
returned list is the produced standard output. -/
def initial (s : SyncState) : SyncState × List String :=
  (s, ["initial"])

/-- One unit of work performed by Command.save, in execution order: either
processing one migration file of one application (reading content and calling
get_or_create), or stopping with an uncaught exception. -/
inductive ItemAct where
  | proc (app file content : String)
  | fail (e : PyExc)
  deriving DecidableEq, Repr

/-- Work list of the inner save loop over one application's files: reading a
file either yields its content or aborts the command. -/
def file_acts (fs : FS) (app : String) : List String → List ItemAct
  | [] => []
  | f :: rest =>
    match readFile fs f with
    | .error e => [.fail e]
    | .ok c => .proc app f c :: file_acts fs app rest

/-- Work list of the outer save loop: listing a migrations directory either
yields its files or aborts the command. The list depends only on the file
system, not on the database. -/
def dir_acts (fs : FS) : List (String × String) → List ItemAct
  | [] => []
  | (app, path) :: rest =>
    match get_app_migrations_file fs path with
    | .error e => [.fail e]
    | .ok files => file_acts fs app files ++ dir_acts fs rest

/-- Row that processing one file would insert. -/
def recOfItem (app file content : String) : MigRecord :=
  ⟨app, firstSeg file, json_dumps (readlines content)⟩

/-- Execution of a save work list against the table: stops at the first
pending exception or at the first get_or_create raising
MultipleObjectsReturned, keeping the rows created so far. -/
def runActs : List MigRecord → List ItemAct → List MigRecord × Option PyExc
  | db, [] => (db, none)
  | db, .fail e :: _ => (db, some e)
  | db, .proc app file content :: rest =>
    match get_or_create db app (firstSeg file) (json_dumps (readlines content)) with
    | .error e => (db, some e)
    | .ok (db2, _) => runActs db2 rest

/-- Keys (app_name, file_name) of the rows a save work list would target. -/
def keysOf : List ItemAct → List (String × String)
  | [] => []
  | .proc app file _ :: rest => (app, firstSeg file) :: keysOf rest
  | .fail _ :: rest => keysOf rest

/-- Row created for the first processed file carrying the given key, if any. -/
def firstRecWithKey (a f : String) : List ItemAct → Option MigRecord
  | [] => none
  | .fail _ :: rest => firstRecWithKey a f rest
  | .proc app file c :: rest =>
    if app == a && firstSeg file == f then some (recOfItem app file c)
    else firstRecWithKey a f rest

/-- Writes (target path, content) performed by the Command.load loop body for
one application, in order: the package marker first, then one file per stored
row of the application. -/
def app_writes (db : List MigRecord) (app path : String) : List (String × String) :=
  (os_path_join path "__init__.py", "") ::
  (db.filter (fun r => r.app_name == app)).map
    (fun r => (os_path_join path (r.file_name ++ ".py"),
               writeAll "# coding:utf-8\n" (json_loads r.file_content)))

/-- All writes performed by Command.load, in order. -/
def loadWrites (db : List MigRecord) : List (String × String) → List (String × String)
  | [] => []
  | (app, path) :: rest => app_writes db app path ++ loadWrites db rest

/-- Application of a write list to a content store, in order. -/
def applyWrites (c : List (String × String)) : List (String × String) → List (String × String)
  | [] => c
  | (p, s) :: rest => applyWrites (upsert c p s) rest

/-- Content of the chronologically last write targeting a path, if any. -/
def lastWrite : List (String × String) → String → Option String
  | [], _ => none
  | (q, s) :: rest, p =>
    match lastWrite rest p with
    | some x => some x
    | none => if q == p then some s else none

/-- Extension of a file name in the ordinary sense the specification uses: the
segment after the last dot when the name contains a dot, and empty otherwise
(a file named pyc has no extension). -/
def extOf (name : String) : String :=
  if '.' ∈ name.data then lastSeg name else ""

/-- Modelled from the spec: the file list the claim about
get_app_migrations_file describes for an existing directory — the files other
than __init__.py whose extension is not pyc, each joined with the directory
path. Stated for comparison with the implementation. -/
def spec_migrations_file (names : List String) (path : String) : List String :=
  (names.filter (fun f => !(f == "__init__.py") && !(extOf f == "pyc"))).map
    (fun f => os_path_join path f)

/-- Concrete Django settings used by the test fixtures below. -/
def exampleSettings : Settings :=
  ⟨"/base", ["myapp"]⟩

/-- Concrete file system: one installed application with one migration file
named 0001_initial.py whose content is the single line "x". -/
def exampleFS : FS :=
  ⟨[("/base/myapp", []), ("/base/myapp/migrations", ["__init__.py", "0001_initial.py"])],
   [("/base/myapp/migrations/0001_initial.py", "x\n")]⟩

/-- Python values as they appear in the response envelope of
BasicResponseMixin (app/mixin/views.py): None, strings, ints, lists, dicts. -/
inductive PyVal where
  | none
  | str (s : String)
  | int (n : Int)
  | list (xs : List PyVal)
  | dict (entries : List (String × PyVal))

/-- BasicResponseMixin.main_body: the fresh envelope dict, in insertion order. -/
def main_body : List (String × PyVal) :=
  [("result", .str ""), ("total", .int 0), ("extra", .dict []), ("data", .str "")]

/-- DRF Response as far as the mixins inspect it: payload dict plus status. -/
structure PyResponse where
  data : List (String × PyVal)
  status : Nat

/-- BasicResponseMixin.set_response: fills the envelope in source order
(result, data, extra, total); data and extra fall back to an empty dict when
None; total is len(data) when the data argument is a list and 0 otherwise. -/
def set_response (result data extra : PyVal) (status : Nat) : PyResponse :=
  let r0 := main_body
  let r1 := upsert r0 "result" result
  let r2 := upsert r1 "data" (match data with | .none => .dict [] | d => d)
  let r3 := upsert r2 "extra" (match extra with | .none => .dict [] | x => x)
  let r4 := upsert r3 "total"
    (match data with | .list xs => .int xs.length | _ => .int 0)
  ⟨r4, status⟩

/-- Incoming request as BasicListModelMixin.paginate reads it: the page and
limit query parameters and the PAGINATE_DISABLE header. -/
structure Request where
  page : Option String
  limit : Option String
  paginate_disable : Option String

/-- Python truthiness of an optional query-string value: None and the empty
string are falsy, every other string is truthy. -/
def truthyStr : Option String → Bool
  | none => false
  | some s => !(s == "")

/-- Value of a nonempty digit sequence; none on the empty list or a non-digit. -/
def digitsValAux : Option Nat → List Char → Option Nat
  | acc, [] => acc
  | acc, c :: rest =>
    if c.isDigit then digitsValAux (some ((acc.getD 0) * 10 + (c.toNat - 48))) rest
    else none

/-- Value of a nonempty digit sequence, starting from no accumulated digits. -/
def digitsVal (l : List Char) : Option Nat :=
  digitsValAux none l

/-- Optional-sign decimal integer literal. -/
def parseDec : List Char → Option Int
  | '-' :: rest => (digitsVal rest).map (fun n => -(n : Int))
  | '+' :: rest => (digitsVal rest).map (fun n => (n : Int))
  | l => (digitsVal l).map (fun n => (n : Int))

/-- Python int(x) as paginate applies it to query parameters: int(None) raises
TypeError; a string parses as an optional-sign decimal literal and raises
ValueError otherwise. (int also strips surrounding whitespace and permits
underscore separators; those forms are not modelled.) -/
def pyInt : Option String → Except PyExc Int
  | none => .error .typeError
  | some s =>
    match parseDec s.data with
    | some n => .ok n
    | none => .error .valueError

/-- Django QuerySet slicing qs[start:stop]: negative bounds raise ValueError
(QuerySet.__getitem__ forbids negative indexing); otherwise the usual clamped
slice of the underlying row list. -/
def qsSlice {α : Type} (xs : List α) (start stop : Int) : Except PyExc (List α) :=
  if start < 0 ∨ stop < 0 then .error .valueError
  else .ok ((xs.drop start.toNat).take (stop.toNat - start.toNat))

/-- BasicListModelMixin.paginate over the already-filtered queryset. -/
def paginate {α : Type} (req : Request) (query_set : List α) :
    Except PyExc (List α) :=
  let page := req.page
  let limit := req.limit
  let total_count : Int := query_set.length
  if req.paginate_disable.isSome then .ok query_set
  else if !(truthyStr page || truthyStr limit) then .ok query_set
  else
    match pyInt page with
    | .error e => .error e
    | .ok p =>
      match pyInt limit with
      | .error e => .error e
      | .ok l =>
        let start := (p - 1) * l
        let stop := p * l
        if start ≥ total_count then qsSlice query_set 0 l
        else qsSlice query_set start stop

/-- Whether an evaluation ended in a raised exception. -/
def pyRaises {β : Type} : Except PyExc β → Bool
  | .ok _ => false
  | .error _ => true

/-- Outcome of BasicAuthPermissionViewMixin.dispatch: either a bare
HttpResponse produced before routing, or the response of the method handler. -/
inductive DispatchResult (ρ : Type) where
  | http (status : Nat) (body : String)
  | handled (r : ρ)

/-- BasicAuthPermissionViewMixin.dispatch, parameterized by the outcomes of the
pluggable check_authentication and check_permission and by the result the
superclass dispatch (the method handler) would produce. -/
def dispatch {ρ : Type} (is_auth : Bool) (has_perm : Bool) (handler : ρ) :
    DispatchResult ρ :=
  if is_auth == false then .http 401 "Unauthorized"
  else if has_perm == false then .http 403 "No permission"
  else .handled handler

/-- Names bound at module level in app/mixin/views.py: the imports copy,
transaction, HttpResponse, drf_status, Response, mixins, params, permissions,
and nothing else before the mixin classes. In particular logger is never
defined or imported. -/
def views_module_names : List String :=
  ["copy", "transaction", "HttpResponse", "drf_status", "Response", "mixins",
   "params", "permissions"]

/-- Evaluation of the expression logger.error(...) inside app/mixin/views.py:
resolving the free name logger in the module namespace fails, so the call
raises NameError. -/
def logger_error : Except PyExc Unit :=
  if "logger" ∈ views_module_names then .ok () else .error .nameError

/-- BasicListModelMixin._pre_process_list: the first name of
query_string_check missing from the query parameters yields an error pair. -/
def pre_process_list : List String → List (String × String) → Option String × String
  | [], _ => (none, "")
  | q :: rest, qp =>
    match alookup qp q with
    | some _ => pre_process_list rest qp
    | none => (some ("Query String " ++ q ++ " is required"),
               "查询字符串 " ++ q ++ " 为必传字段")

/-- BasicListModelMixin.list under transaction.atomic, parameterized by the
outcomes of the three hook steps. The Bool records whether
transaction.set_rollback(True) was executed; the Except carries either the
returned response or an exception escaping the method. Each error branch first
marks the rollback, then evaluates logger.error(...) before building the
400 response. -/
def list_flow (pre : Option String × String)
    (perform : Except PyExc PyResponse)
    (post : PyResponse → (Option String × String) × PyResponse) :
    Bool × Except PyExc PyResponse :=
  match pre with
  | (some error, reason) =>
    (true, match logger_error with
           | .error e => .error e
           | .ok _ => .ok (set_response (.str error) (.str reason) .none 400))
  | (none, _) =>
    match perform with
    | .error _ =>
      (true, match logger_error with
             | .error e => .error e
             | .ok _ => .ok (set_response (.str "Failed to get model list")
                 (.str "获取资源数据列表失败") .none 400))
    | .ok response =>
      match post response with
      | ((some error, reason), _) =>
        (true, match logger_error with
               | .error e => .error e
               | .ok _ => .ok (set_response (.str error) (.str reason) .none 400))
      | ((none, _), response2) => (false, .ok response2)

/-- C10: the initial action only prints a message and is a no-op on all other
state: it leaves the file system and every record of the migration store
unchanged, and its printed output does not depend on the state, so it reads
neither the file system nor the store. -/
theorem C10_initial_noop :
    ∀ s : SyncState, (initial s).1 = s ∧
      ∀ s2 : SyncState, (initial s).2 = (initial s2).2 :=
  fun _ => ⟨rfl, fun _ => rfl⟩

/-- C7: dispatch runs the authentication check first and returns a response
with HTTP status 401 when it fails; otherwise it runs the permission check and
returns HTTP status 403 when that fails; only when both checks pass is the
request dispatched to the method handler. On both failure outcomes the result
does not depend on the handler, which expresses that the handler is not
invoked. -/
theorem C7_dispatch {ρ : Type} (h : ρ) (is_auth has_perm : Bool) :
    (is_auth = false →
      dispatch is_auth has_perm h = .http 401 "Unauthorized" ∧
      ∀ h2 : ρ, dispatch is_auth has_perm h2 = dispatch is_auth has_perm h) ∧
    (is_auth = true → has_perm = false →
      dispatch is_auth has_perm h = .http 403 "No permission" ∧
      ∀ h2 : ρ, dispatch is_auth has_perm h2 = dispatch is_auth has_perm h) ∧
    (is_auth = true → has_perm = true →
      dispatch is_auth has_perm h = .handled h) := by
  cases is_auth <;> cases has_perm <;>
    exact ⟨fun hh => by simp_all [dispatch], fun hh hp => by simp_all [dispatch],
           fun hh hp => by simp_all [dispatch]⟩

/-- Witness for C7_dispatch at concrete check outcomes. -/
theorem C7_dispatch_witness :
    (dispatch false true (0 : Nat) = .http 401 "Unauthorized") ∧
    (dispatch true false (0 : Nat) = .http 403 "No permission") ∧
    (dispatch true true (0 : Nat) = .handled 0) :=
  ⟨((C7_dispatch 0 false true).1 rfl).1,
   ((C7_dispatch 0 true false).2.1 rfl rfl).1,
   (C7_dispatch 0 true true).2.2 rfl rfl⟩

/-- C3: evaluation of the list flow at a request whose pre-process step
reports an error (query_string_check requires the name parameter and the
request supplies no query parameters). The transaction is marked for rollback,
but instead of the claimed HTTP 400 error response the flow raises NameError,
because the free name logger is resolved in the module namespace of
app/mixin/views.py, where it is never defined or imported. -/
theorem C3_list_flow_name_error :
    list_flow (pre_process_list ["name"] [])
      (.ok ⟨[], 200⟩) (fun r => ((none, ""), r)) =
      (true, .error .nameError) := rfl

/-- C8: every envelope built by set_response has exactly the keys result,
total, extra and data; total is the length of data when data is a list and 0
otherwise; data and extra each default to the empty dict when passed as None;
and this holds for every combination of arguments. -/
theorem C8_set_response (result data extra : PyVal) (status : Nat) :
    ((set_response result data extra status).data.map Prod.fst
        = ["result", "total", "extra", "data"]) ∧
    alookup (set_response result data extra status).data "result" = some result ∧
    alookup (set_response result data extra status).data "data"
        = some (match data with | .none => .dict [] | d => d) ∧
    alookup (set_response result data extra status).data "extra"
        = some (match extra with | .none => .dict [] | x => x) ∧
    alookup (set_response result data extra status).data "total"
        = some (.int (match data with | .list xs => (xs.length : Int) | _ => 0)) ∧
    (set_response result data extra status).status = status := by
  cases data <;> cases extra <;> exact ⟨rfl, rfl, rfl, rfl, rfl, rfl⟩

/-- Parsing success implies the parameter value was a truthy (nonempty)
string: int(None) and int("") both raise. -/
theorem pyInt_ok_truthy {o : Option String} {n : Int} (h : pyInt o = .ok n) :
    truthyStr o = true := by
  match o with
  | none => simp [pyInt] at h
  | some s =>
    by_cases hs : s = ""
    · subst hs
      simp [pyInt, parseDec, digitsVal, digitsValAux] at h
    · simp [truthyStr, hs]

/-- Unfolding of paginate when pagination is enabled and both parameters parse. -/
theorem paginate_parsed {α : Type} (req : Request) (qs : List α) (p l : Int)
    (hd : req.paginate_disable = none)
    (hp : pyInt req.page = .ok p) (hl : pyInt req.limit = .ok l) :
    paginate req qs =
      if (p - 1) * l ≥ (qs.length : Int) then qsSlice qs 0 l
      else qsSlice qs ((p - 1) * l) (p * l) := by
  have hpt : truthyStr req.page = true := pyInt_ok_truthy hp
  unfold paginate
  rw [hd]
  simp [hp, hl, hpt]

/-- C6 (amended): paginate returns the entire filtered queryset when the
pagination-disable header is present or when neither page nor limit carries a
truthy (nonempty) value; when both are supplied and parse as integers at least
1, it returns the slice from (page-1)*limit to page*limit of the filtered
queryset, except that when (page-1)*limit is at least the total count it
resets to the first page and returns the first limit elements; when exactly
one of page and limit is supplied with a nonempty value it raises. -/
theorem C6_paginate {α : Type} (req : Request) (qs : List α) :
    (req.paginate_disable.isSome = true → paginate req qs = .ok qs) ∧
    (truthyStr req.page = false → truthyStr req.limit = false →
      paginate req qs = .ok qs) ∧
    (∀ p l : Int, req.paginate_disable = none →
      pyInt req.page = .ok p → pyInt req.limit = .ok l → 1 ≤ p → 1 ≤ l →
      ((p - 1) * l < (qs.length : Int) →
        paginate req qs = .ok ((qs.drop ((p - 1) * l).toNat).take l.toNat)) ∧
      ((qs.length : Int) ≤ (p - 1) * l →
        paginate req qs = .ok (qs.take l.toNat))) ∧
    (req.paginate_disable = none → truthyStr req.page = true →
      req.limit = none → pyRaises (paginate req qs) = true) ∧
    (req.paginate_disable = none → req.page = none →
      truthyStr req.limit = true → paginate req qs = .error .typeError) := by
  refine ⟨?_, ?_, ?_, ?_, ?_⟩
  · intro hd
    unfold paginate
    simp [hd]
  · intro hp hl
    unfold paginate
    by_cases hd : req.paginate_disable.isSome
    · simp [hd]
    · simp [hd, hp, hl]
  · intro p l hd hp hl h1p h1l
    have h0 : (0 : Int) ≤ (p - 1) * l := mul_nonneg (by omega) (by omega)
    have h0b : (0 : Int) ≤ p * l := mul_nonneg (by omega) (by omega)
    have hmul : p * l = (p - 1) * l + l := by ring
    constructor
    · intro hlt
      rw [paginate_parsed req qs p l hd hp hl, if_neg (by omega)]
      have hcnt : (p * l).toNat - ((p - 1) * l).toNat = l.toNat := by omega
      unfold qsSlice
      rw [if_neg (by omega), hcnt]
    · intro hge
      rw [paginate_parsed req qs p l hd hp hl, if_pos (by omega)]
      unfold qsSlice
      rw [if_neg (by omega)]
      simp
  · intro hd hpt hlim
    have hn : pyInt none = .error .typeError := rfl
    unfold paginate
    rw [hd]
    cases hpp : pyInt req.page with
    | error e => simp [hpt, hpp, pyRaises]
    | ok p =>
      rw [hlim]
      simp [hpt, hpp, hn, pyRaises]
  · intro hd hpage hlt
    have hn : pyInt none = .error .typeError := rfl
    have ht : truthyStr none = false := rfl
    unfold paginate
    rw [hd, hpage]
    simp [hlt, hn, ht]

/-- Counterexample to C6 as stated: the page parameter is supplied (as the
empty string) and limit is not, yet paginate does not raise: a falsy value
counts as absent and the entire queryset is returned. -/
theorem C6_counterexample :
    (⟨some "", none, none⟩ : Request).page ≠ none ∧
    paginate (⟨some "", none, none⟩ : Request) [0] = .ok [(0 : Nat)] :=
  ⟨Option.some_ne_none "", rfl⟩

/-- Witness for C6_paginate at concrete requests: an in-range page, an
out-of-range page that resets, a lone page raising, a lone limit raising with
TypeError, and the disable header and the all-absent case returning the full
queryset. -/
theorem C6_paginate_witness :
    paginate (⟨some "2", some "2", none⟩ : Request) [0, 1, 2, 3, 4] =
      .ok ((([0, 1, 2, 3, 4] : List Nat).drop (((2 : Int) - 1) * 2).toNat).take
        (2 : Int).toNat) ∧
    paginate (⟨some "9", some "2", none⟩ : Request) [0, 1, 2, 3, 4] =
      .ok (([0, 1, 2, 3, 4] : List Nat).take (2 : Int).toNat) ∧
    pyRaises (paginate (⟨some "7", none, none⟩ : Request) [(0 : Nat)]) = true ∧
    paginate (⟨none, some "7", none⟩ : Request) [(0 : Nat)] = .error .typeError ∧
    paginate (⟨none, none, some "1"⟩ : Request) [(0 : Nat)] = .ok [0] ∧
    paginate (⟨none, none, none⟩ : Request) [(0 : Nat)] = .ok [0] := by
  refine ⟨?_, ?_, ?_, ?_, ?_, ?_⟩
  · exact ((C6_paginate (⟨some "2", some "2", none⟩ : Request) [0, 1, 2, 3, 4]).2.2.1
      2 2 rfl rfl rfl (by decide) (by decide)).1 (by decide)
  · exact ((C6_paginate (⟨some "9", some "2", none⟩ : Request) [0, 1, 2, 3, 4]).2.2.1
      9 2 rfl rfl rfl (by decide) (by decide)).2 (by decide)
  · exact (C6_paginate (⟨some "7", none, none⟩ : Request) [(0 : Nat)]).2.2.2.1
      rfl (by decide) rfl
  · exact (C6_paginate (⟨none, some "7", none⟩ : Request) [(0 : Nat)]).2.2.2.2
      rfl rfl (by decide)
  · exact (C6_paginate (⟨none, none, some "1"⟩ : Request) [(0 : Nat)]).1 rfl
  · exact (C6_paginate (⟨none, none, none⟩ : Request) [(0 : Nat)]).2.1 rfl rfl

/-- Filtering after erasing one occurrence of a key is, on duplicate-free
lists, the same as filtering with the key excluded. -/
theorem filter_erase_key (p : String → Bool) (x : String) :
    ∀ names : List String, names.Nodup →
      (names.erase x).filter p = names.filter (fun f => (f != x) && p f) := by
  intro names hnd
  induction names with
  | nil => rfl
  | cons a rest ih =>
    rcases List.nodup_cons.mp hnd with ⟨hax, hrest⟩
    rw [List.erase_cons]
    by_cases hx : a = x
    · subst hx
      rw [if_pos (beq_self_eq_true a)]
      have : rest.filter (fun f => (f != a) && p f) = rest.filter p := by
        apply List.filter_congr
        intro f hf
        have : f ≠ a := fun h => hax (h ▸ hf)
        simp [this]
      simp [List.filter_cons, this]
    · rw [if_neg (by simp [hx])]
      rw [List.filter_cons, List.filter_cons]
      have hne : (a != x) = true := by simp [hx]
      rw [ih hrest]
      by_cases hpa : p a = true <;> simp [hpa, hne]

/-- C9 (amended): get_app_migrations_file returns the empty list when the
directory does not exist; when it exists it raises unless some entry is named
__init__.py; and otherwise it returns exactly the files of the directory other
than __init__.py whose final dot-separated segment is not pyc — this also
excludes a file named exactly pyc, even though such a file has no extension —
each joined with the directory path. -/
theorem C9_get_app_migrations_file (fs : FS) (path : String) :
    (alookup fs.dirs path = none → get_app_migrations_file fs path = .ok []) ∧
    (∀ names, alookup fs.dirs path = some names → "__init__.py" ∉ names →
      get_app_migrations_file fs path = .error .valueError) ∧
    (∀ names, alookup fs.dirs path = some names → "__init__.py" ∈ names →
      names.Nodup →
      get_app_migrations_file fs path =
        .ok ((names.filter
          (fun f => (f != "__init__.py") && !(lastSeg f == "pyc"))).map
          (fun f => os_path_join path f))) := by
  refine ⟨?_, ?_, ?_⟩
  · intro h
    unfold get_app_migrations_file
    rw [h]
  · intro names h hmem
    unfold get_app_migrations_file
    rw [h]
    simp [hmem]
  · intro names h hmem hnd
    have hred : get_app_migrations_file fs path =
        .ok (((names.erase "__init__.py").filter
          (fun file => !(file == "__init__.py" || lastSeg file == "pyc"))).map
          (fun file => os_path_join path file)) := by
      unfold get_app_migrations_file
      rw [h]
      simp [hmem]
    rw [hred]
    have hfe := filter_erase_key
      (fun file => !(file == "__init__.py" || lastSeg file == "pyc"))
      "__init__.py" names hnd
    rw [hfe]
    congr 1
    apply congrArg
    apply List.filter_congr
    intro f _
    by_cases hfx : f = "__init__.py" <;> cases hf2 : (lastSeg f == "pyc") <;>
      simp [hfx, hf2]

/-- Counterexample to C9 as stated: a directory holding __init__.py and a file
named exactly pyc. That file has no extension (extOf evaluates to the empty
string), so the claimed result keeps it, but the implementation filters on the
final dot-separated segment and drops it, returning the empty list. -/
theorem C9_counterexample :
    get_app_migrations_file ⟨[("d", ["__init__.py", "pyc"])], []⟩ "d" = .ok [] ∧
    extOf "pyc" = "" ∧
    spec_migrations_file ["__init__.py", "pyc"] "d" = ["d/pyc"] :=
  ⟨rfl, rfl, rfl⟩

/-- Witness for C9_get_app_migrations_file on a missing directory, a directory
without the package marker, and an ordinary migrations directory. -/
theorem C9_witness :
    get_app_migrations_file ⟨[("d", ["__init__.py", "0001_initial.py", "a.pyc"])], []⟩
      "nope" = .ok [] ∧
    get_app_migrations_file ⟨[("e", ["0001_initial.py"])], []⟩ "e" =
      .error .valueError ∧
    get_app_migrations_file ⟨[("d", ["__init__.py", "0001_initial.py", "a.pyc"])], []⟩
      "d" = .ok (((["__init__.py", "0001_initial.py", "a.pyc"] : List String).filter
        (fun f => (f != "__init__.py") && !(lastSeg f == "pyc"))).map
        (fun f => os_path_join "d" f)) := by
  refine ⟨?_, ?_, ?_⟩
  · exact (C9_get_app_migrations_file _ _).1 rfl
  · exact (C9_get_app_migrations_file _ _).2.1 _ rfl (by decide)
  · exact (C9_get_app_migrations_file _ _).2.2 _ rfl (by decide) (by decide)

/-- Running a save work list in two stages. -/
theorem runActs_append (a1 : List ItemAct) :
    ∀ (a2 : List ItemAct) (db : List MigRecord),
      runActs db (a1 ++ a2) =
        match runActs db a1 with
        | (db1, some e) => (db1, some e)
        | (db1, none) => runActs db1 a2 := by
  induction a1 with
  | nil => intro a2 db; rfl
  | cons a rest ih =>
    intro a2 db
    cases a with
    | fail e => rfl
    | proc app file content =>
      rw [List.cons_append]
      simp only [runActs]
      cases hg : get_or_create db app (firstSeg file) (json_dumps (readlines content)) with
      | error e => rfl
      | ok pr =>
        obtain ⟨db2, flag⟩ := pr
        dsimp only
        exact ih a2 db2

/-- Inner save loop as execution of its work list. -/
theorem save_files_eq (fs : FS) (app : String) :
    ∀ (files : List String) (db : List MigRecord),
      save_files fs app files db = runActs db (file_acts fs app files) := by
  intro files
  induction files with
  | nil => intro db; rfl
  | cons f rest ih =>
    intro db
    simp only [save_files, file_acts]
    cases hr : readFile fs f with
    | error e => rfl
    | ok c =>
      dsimp only
      simp only [runActs]
      cases hg : get_or_create db app (firstSeg f) (json_dumps (readlines c)) with
      | error e => rfl
      | ok pr =>
        obtain ⟨db2, flag⟩ := pr
        dsimp only
        exact ih db2

/-- Outer save loop as execution of its work list. -/
theorem save_dirs_eq (fs : FS) :
    ∀ (dirs : List (String × String)) (db : List MigRecord),
      save_dirs fs dirs db = runActs db (dir_acts fs dirs) := by
  intro dirs
  induction dirs with
  | nil => intro db; rfl
  | cons d rest ih =>
    intro db
    obtain ⟨app, path⟩ := d
    simp only [save_dirs, dir_acts]
    cases hl : get_app_migrations_file fs path with
    | error e => rfl
    | ok files =>
      dsimp only
      rw [save_files_eq fs app files db, runActs_append]
      cases hres : runActs db (file_acts fs app files) with
      | mk db2 exc =>
        cases exc with
        | none => exact ih db2
        | some e => rfl

/-- Command.save as execution of a work list that depends only on the file
system and the settings, not on the database. -/
theorem save_eq (st : Settings) (fs : FS) (db : List MigRecord) :
    save st fs db = runActs db (dir_acts fs (get_app_migrations_dir st fs)) :=
  save_dirs_eq fs (get_app_migrations_dir st fs) db

/-- Successful get_or_create either created the row (key absent) or left the
table untouched (key present exactly once). -/
theorem get_or_create_ok (db : List MigRecord) (app fname : String)
    (content : PyJson) (pr : List MigRecord × Bool)
    (h : get_or_create db app fname content = .ok pr) :
    (db.filter (keyMatch app fname) = [] ∧
      pr = (db ++ [⟨app, fname, content⟩], true)) ∨
    (∃ x, db.filter (keyMatch app fname) = [x] ∧ pr = (db, false)) := by
  unfold get_or_create at h
  cases hfil : db.filter (keyMatch app fname) with
  | nil =>
    rw [hfil] at h
    dsimp only at h
    left
    refine ⟨rfl, ?_⟩
    injection h with h2
    exact h2.symm
  | cons x tail =>
    cases tail with
    | nil =>
      rw [hfil] at h
      dsimp only at h
      right
      refine ⟨x, rfl, ?_⟩
      injection h with h2
      exact h2.symm
    | cons y tail2 =>
      rw [hfil] at h
      dsimp only at h
      exact Except.noConfusion h

/-- Rows already in the table survive a save run, in place and in order. -/
theorem runActs_keeps_front : ∀ (acts : List ItemAct) (db : List MigRecord),
    db <+: (runActs db acts).1 := by
  intro acts
  induction acts with
  | nil => intro db; exact List.prefix_refl _
  | cons act rest ih =>
    intro db
    cases act with
    | fail e => exact List.prefix_refl _
    | proc app file content =>
      simp only [runActs]
      cases hg : get_or_create db app (firstSeg file) (json_dumps (readlines content)) with
      | error e => exact List.prefix_refl _
      | ok pr =>
        obtain ⟨db2, flag⟩ := pr
        dsimp only
        rcases get_or_create_ok _ _ _ _ _ hg with ⟨hfil, hpr⟩ | ⟨x, hfil, hpr⟩
        · cases hpr
          exact List.IsPrefix.trans (List.prefix_append db _) (ih _)
        · cases hpr
          exact ih db

/-- A key already present in the table keeps exactly its rows across a save
run: save never updates or duplicates an existing (app_name, file_name) key. -/
theorem runActs_filter_pres :
    ∀ (acts : List ItemAct) (db : List MigRecord) (a f : String),
      db.filter (keyMatch a f) ≠ [] →
      ((runActs db acts).1).filter (keyMatch a f) = db.filter (keyMatch a f) := by
  intro acts
  induction acts with
  | nil => intro db a f _; rfl
  | cons act rest ih =>
    intro db a f h
    cases act with
    | fail e => rfl
    | proc app file content =>
      simp only [runActs]
      cases hg : get_or_create db app (firstSeg file) (json_dumps (readlines content)) with
      | error e => rfl
      | ok pr =>
        obtain ⟨db2, flag⟩ := pr
        dsimp only
        rcases get_or_create_ok _ _ _ _ _ hg with ⟨hfil, hpr⟩ | ⟨x, hfil, hpr⟩
        · cases hpr
          have hrecK : keyMatch a f
              (⟨app, firstSeg file, json_dumps (readlines content)⟩ : MigRecord) = false := by
            unfold keyMatch
            dsimp only
            by_contra hb
            rw [Bool.not_eq_false, Bool.and_eq_true, beq_iff_eq, beq_iff_eq] at hb
            obtain ⟨h1, h2⟩ := hb
            subst h1
            subst h2
            exact h hfil
          have happ : (db ++ [(⟨app, firstSeg file, json_dumps (readlines content)⟩ : MigRecord)]).filter
              (keyMatch a f) = db.filter (keyMatch a f) := by
            rw [List.filter_append]
            simp [hrecK]
          rw [ih _ a f (by rw [happ]; exact h), happ]
        · cases hpr
          exact ih db a f h

/-- Saving twice is the same as saving once: the second run finds every key it
processes already present and changes nothing, stopping at the same point. -/
theorem runActs_idem : ∀ (acts : List ItemAct) (db : List MigRecord),
    runActs (runActs db acts).1 acts = runActs db acts := by
  intro acts
  induction acts with
  | nil => intro db; rfl
  | cons act rest ih =>
    intro db
    cases act with
    | fail e => rfl
    | proc app file content =>
      have hrun : runActs db (.proc app file content :: rest) =
          match get_or_create db app (firstSeg file) (json_dumps (readlines content)) with
          | .error e => (db, some e)
          | .ok (db2, _) => runActs db2 rest := rfl
      cases hg : get_or_create db app (firstSeg file) (json_dumps (readlines content)) with
      | error e =>
        have h1 : runActs db (.proc app file content :: rest) = (db, some e) := by
          rw [hrun, hg]
        rw [h1]
        dsimp only
        exact h1
      | ok pr =>
        obtain ⟨db2, flag⟩ := pr
        have h1 : runActs db (.proc app file content :: rest) = runActs db2 rest := by
          rw [hrun, hg]
        rw [h1]
        rcases get_or_create_ok _ _ _ _ _ hg with ⟨hfil, hpr⟩ | ⟨x, hfil, hpr⟩
        · cases hpr
          have hfl1 : (db ++ [(⟨app, firstSeg file, json_dumps (readlines content)⟩ : MigRecord)]).filter
              (keyMatch app (firstSeg file)) = [⟨app, firstSeg file, json_dumps (readlines content)⟩] := by
            rw [List.filter_append, hfil]
            simp [keyMatch]
          have hne : (db ++ [(⟨app, firstSeg file, json_dumps (readlines content)⟩ : MigRecord)]).filter
              (keyMatch app (firstSeg file)) ≠ [] := by
            rw [hfl1]
            simp
          have hpres := runActs_filter_pres rest _ app (firstSeg file) hne
          simp only [runActs]
          unfold get_or_create
          rw [hpres, hfl1]
          dsimp only
          exact ih _
        · cases hpr
          have hne : db.filter (keyMatch app (firstSeg file)) ≠ [] := by
            rw [hfil]
            simp
          have hpres := runActs_filter_pres rest db app (firstSeg file) hne
          simp only [runActs]
          unfold get_or_create
          rw [hpres, hfil]
          dsimp only
          exact ih db

/-- C5: save is idempotent: running it a second time over an unchanged file
system reproduces the first result exactly (rows and exception alike); every
pre-existing row survives in place; and the rows carrying an already-present
(app_name, file_name) key are exactly preserved whatever the file system now
contains, so an existing key is never modified even when the file content on
disk has changed. -/
theorem C5_save_idempotent (st : Settings) (fs : FS) (db : List MigRecord) :
    save st fs (save st fs db).1 = save st fs db ∧
    (∀ r ∈ db, r ∈ (save st fs db).1) ∧
    (∀ a f : String, db.filter (keyMatch a f) ≠ [] →
      ((save st fs db).1).filter (keyMatch a f) = db.filter (keyMatch a f)) := by
  refine ⟨?_, ?_, ?_⟩
  · rw [save_eq st fs db, save_eq st fs _]
    exact runActs_idem _ db
  · intro r hr
    rw [save_eq]
    exact (runActs_keeps_front (dir_acts fs (get_app_migrations_dir st fs)) db).subset hr
  · intro a f h
    rw [save_eq]
    exact runActs_filter_pres _ db a f h

/-- Witness for C5_save_idempotent: a store already holding the key of the one
migration file on disk, with different serialized content than the file now
has; save keeps the old row and adds nothing. -/
theorem C5_witness :
    save exampleSettings exampleFS (save exampleSettings exampleFS []).1 =
      save exampleSettings exampleFS [] ∧
    (⟨"myapp", "/base/myapp/migrations/0001_initial", json_dumps ["old\n"]⟩ : MigRecord) ∈
      (save exampleSettings exampleFS
        [⟨"myapp", "/base/myapp/migrations/0001_initial", json_dumps ["old\n"]⟩]).1 ∧
    ((save exampleSettings exampleFS
        [⟨"myapp", "/base/myapp/migrations/0001_initial", json_dumps ["old\n"]⟩]).1).filter
      (keyMatch "myapp" "/base/myapp/migrations/0001_initial") =
      [⟨"myapp", "/base/myapp/migrations/0001_initial", json_dumps ["old\n"]⟩] := by
  refine ⟨(C5_save_idempotent exampleSettings exampleFS []).1, ?_, ?_⟩
  · exact (C5_save_idempotent exampleSettings exampleFS _).2.1 _ (by decide)
  · exact ((C5_save_idempotent exampleSettings exampleFS _).2.2
      "myapp" "/base/myapp/migrations/0001_initial" (by decide)).trans (by decide)

/-- A run that raised no exception encountered no failing action. -/
theorem runActs_noexc_no_fail :
    ∀ (acts : List ItemAct) (db : List MigRecord),
      (runActs db acts).2 = none → ∀ e : PyExc, ItemAct.fail e ∉ acts := by
  intro acts
  induction acts with
  | nil => intro db _ e; simp
  | cons act rest ih =>
    intro db hne e
    cases act with
    | fail e2 =>
      simp only [runActs] at hne
      exact absurd hne (by simp)
    | proc app file content =>
      have hrun : runActs db (.proc app file content :: rest) =
          match get_or_create db app (firstSeg file) (json_dumps (readlines content)) with
          | .error e2 => (db, some e2)
          | .ok (db2, _) => runActs db2 rest := rfl
      cases hg : get_or_create db app (firstSeg file) (json_dumps (readlines content)) with
      | error e2 =>
        rw [hrun, hg] at hne
        exact absurd hne (by simp)
      | ok pr =>
        obtain ⟨db2, flag⟩ := pr
        rw [hrun, hg] at hne
        dsimp only at hne
        intro hmem
        rcases List.mem_cons.mp hmem with h1 | h1
        · exact ItemAct.noConfusion h1
        · exact ih db2 hne e h1

/-- Every file of a fully-read directory contributes its action. -/
theorem mem_file_acts (fs : FS) (app : String) :
    ∀ (files : List String) (file s : String),
      file ∈ files → readFile fs file = .ok s →
      (∀ e : PyExc, ItemAct.fail e ∉ file_acts fs app files) →
      ItemAct.proc app file s ∈ file_acts fs app files := by
  intro files
  induction files with
  | nil => intro file s hmem _ _; simp at hmem
  | cons f rest ih =>
    intro file s hmem hread hnf
    unfold file_acts
    cases hr : readFile fs f with
    | error e =>
      exfalso
      apply hnf e
      unfold file_acts
      rw [hr]
      simp
    | ok c =>
      dsimp only
      rcases List.mem_cons.mp hmem with h1 | h1
      · subst h1
        rw [hr] at hread
        injection hread with h2
        subst h2
        exact List.mem_cons_self _ _
      · apply List.mem_cons_of_mem
        apply ih file s h1 hread
        intro e he
        apply hnf e
        unfold file_acts
        rw [hr]
        exact List.mem_cons_of_mem _ he

/-- Every file of every listed application contributes its action, as long as
no action in the work list is a failure. -/
theorem mem_dir_acts (fs : FS) :
    ∀ (dirs : List (String × String)) (app path file s : String)
      (files : List String),
      (app, path) ∈ dirs →
      get_app_migrations_file fs path = .ok files →
      file ∈ files → readFile fs file = .ok s →
      (∀ e : PyExc, ItemAct.fail e ∉ dir_acts fs dirs) →
      ItemAct.proc app file s ∈ dir_acts fs dirs := by
  intro dirs
  induction dirs with
  | nil => intro app path file s files hmemd _ _ _ _; simp at hmemd
  | cons d rest ih =>
    obtain ⟨a0, p0⟩ := d
    intro app path file s files hmemd hlist hmemf hread hnf
    cases hl : get_app_migrations_file fs p0 with
    | error e =>
      exfalso
      apply hnf e
      unfold dir_acts
      rw [hl]
      simp
    | ok files0 =>
      unfold dir_acts
      rw [hl]
      dsimp only
      rcases List.mem_cons.mp hmemd with h1 | h1
      · injection h1 with ha hp
        subst ha
        subst hp
        rw [hl] at hlist
        injection hlist with hf
        subst hf
        apply List.mem_append_left
        apply mem_file_acts fs app _ file s hmemf hread
        intro e he
        apply hnf e
        unfold dir_acts
        rw [hl]
        exact List.mem_append_left _ he
      · apply List.mem_append_right
        apply ih app path file s files h1 hlist hmemf hread
        intro e he
        apply hnf e
        unfold dir_acts
        rw [hl]
        exact List.mem_append_right _ he

/-- Starting from a table without a key, a run that raised nothing ends with
exactly the row created for the first processed file carrying that key (and no
row at all when no processed file carries it). -/
theorem runActs_first_key :
    ∀ (acts : List ItemAct) (db : List MigRecord) (a f : String),
      (runActs db acts).2 = none →
      db.filter (keyMatch a f) = [] →
      ((runActs db acts).1).filter (keyMatch a f) =
        (match firstRecWithKey a f acts with
         | some r => [r]
         | none => []) := by
  intro acts
  induction acts with
  | nil => intro db a f _ hdb; exact hdb
  | cons act rest ih =>
    intro db a f hne hdb
    cases act with
    | fail e =>
      simp only [runActs] at hne
      exact absurd hne (by simp)
    | proc app file content =>
      have hrun : runActs db (.proc app file content :: rest) =
          match get_or_create db app (firstSeg file) (json_dumps (readlines content)) with
          | .error e => (db, some e)
          | .ok (db2, _) => runActs db2 rest := rfl
      cases hg : get_or_create db app (firstSeg file) (json_dumps (readlines content)) with
      | error e =>
        rw [hrun, hg] at hne
        exact absurd hne (by simp)
      | ok pr =>
        obtain ⟨db2, flag⟩ := pr
        rw [hrun, hg] at hne ⊢
        dsimp only at hne ⊢
        unfold firstRecWithKey
        rcases get_or_create_ok _ _ _ _ _ hg with ⟨hfil, hpr⟩ | ⟨x, hfil, hpr⟩
        · cases hpr
          by_cases hk : (app == a && firstSeg file == f) = true
          · rw [if_pos hk]
            rw [Bool.and_eq_true, beq_iff_eq, beq_iff_eq] at hk
            obtain ⟨h1, h2⟩ := hk
            subst h1
            subst h2
            have hfl1 : (db ++ [(⟨app, firstSeg file,
                json_dumps (readlines content)⟩ : MigRecord)]).filter
                (keyMatch app (firstSeg file)) =
                [⟨app, firstSeg file, json_dumps (readlines content)⟩] := by
              rw [List.filter_append, hfil]
              simp [keyMatch]
            rw [runActs_filter_pres rest _ _ _ (by rw [hfl1]; simp), hfl1]
            rfl
          · rw [if_neg hk]
            have hrecK : keyMatch a f (⟨app, firstSeg file,
                json_dumps (readlines content)⟩ : MigRecord) = false := by
              unfold keyMatch
              dsimp only
              exact Bool.not_eq_true _ ▸ (by simpa using hk)
            have happ : (db ++ [(⟨app, firstSeg file,
                json_dumps (readlines content)⟩ : MigRecord)]).filter
                (keyMatch a f) = [] := by
              rw [List.filter_append, hdb]
              simp [hrecK]
            exact ih _ a f hne happ
        · cases hpr
          by_cases hk : (app == a && firstSeg file == f) = true
          · exfalso
            rw [Bool.and_eq_true, beq_iff_eq, beq_iff_eq] at hk
            obtain ⟨h1, h2⟩ := hk
            subst h1
            subst h2
            rw [hdb] at hfil
            exact List.noConfusion hfil
          · rw [if_neg hk]
            exact ih db a f hne hdb

/-- Key of a processed file occurs among the keys of the work list. -/
theorem mem_keysOf :
    ∀ (acts : List ItemAct) (app file c : String),
      ItemAct.proc app file c ∈ acts → (app, firstSeg file) ∈ keysOf acts := by
  intro acts
  induction acts with
  | nil => intro app file c h; simp at h
  | cons act rest ih =>
    intro app file c hmem
    cases act with
    | fail e =>
      rcases List.mem_cons.mp hmem with h1 | h1
      · exact ItemAct.noConfusion h1
      · exact ih app file c h1
    | proc a0 f0 c0 =>
      rcases List.mem_cons.mp hmem with h1 | h1
      · injection h1 with ha hf hc
        subst ha
        subst hf
        exact List.mem_cons_self _ _
      · exact List.mem_cons_of_mem _ (ih app file c h1)

/-- With pairwise-distinct keys, the first row created for a file's key is the
row of that very file. -/
theorem firstRec_of_nodup :
    ∀ (acts : List ItemAct) (app file content : String),
      ItemAct.proc app file content ∈ acts →
      (keysOf acts).Nodup →
      firstRecWithKey app (firstSeg file) acts =
        some (recOfItem app file content) := by
  intro acts
  induction acts with
  | nil => intro app file content h _; simp at h
  | cons act rest ih =>
    intro app file content hmem hnd
    cases act with
    | fail e =>
      unfold firstRecWithKey
      rcases List.mem_cons.mp hmem with h1 | h1
      · exact ItemAct.noConfusion h1
      · exact ih app file content h1 hnd
    | proc a0 f0 c0 =>
      have hnd2 : ((a0, firstSeg f0) :: keysOf rest).Nodup := hnd
      rcases List.nodup_cons.mp hnd2 with ⟨hnotin, hndr⟩
      unfold firstRecWithKey
      rcases List.mem_cons.mp hmem with h1 | h1
      · injection h1 with ha hf hc
        subst ha
        subst hf
        subst hc
        rw [if_pos (by simp)]
      · by_cases hk : (a0 == app && firstSeg f0 == firstSeg file) = true
        · exfalso
          rw [Bool.and_eq_true, beq_iff_eq, beq_iff_eq] at hk
          obtain ⟨h2, h3⟩ := hk
          apply hnotin
          rw [h2, h3]
          exact mem_keysOf rest app file content h1
        · rw [if_neg hk]
          exact ih app file content h1 hndr

/-- Save on a fresh store, completing without an exception over pairwise
distinct keys, leaves exactly one row per processed file, carrying the joined
path truncated before the first dot and the serialized line list. -/
theorem save_fresh_filter (st : Settings) (fs : FS) (app path file s : String)
    (files : List String)
    (hdir : (app, path) ∈ get_app_migrations_dir st fs)
    (hfiles : get_app_migrations_file fs path = .ok files)
    (hfile : file ∈ files)
    (hread : readFile fs file = .ok s)
    (hnoexc : (save st fs []).2 = none)
    (hnodup : (keysOf (dir_acts fs (get_app_migrations_dir st fs))).Nodup) :
    ((save st fs []).1).filter (keyMatch app (firstSeg file)) =
      [⟨app, firstSeg file, json_dumps (readlines s)⟩] := by
  rw [save_eq] at hnoexc ⊢
  have hnf : ∀ e : PyExc,
      ItemAct.fail e ∉ dir_acts fs (get_app_migrations_dir st fs) :=
    runActs_noexc_no_fail _ [] hnoexc
  have hmem : ItemAct.proc app file s ∈ dir_acts fs (get_app_migrations_dir st fs) :=
    mem_dir_acts fs _ app path file s files hdir hfiles hfile hread hnf
  have hfirst := firstRec_of_nodup _ app file s hmem hnodup
  have hkey := runActs_first_key _ [] app (firstSeg file) hnoexc rfl
  rw [hfirst] at hkey
  exact hkey

/-- C1 (amended): when save completes without an exception on an initially
empty store and the keys it processes are pairwise distinct, then for every
installed application whose directory exists and every file the migrations
directory walk yields, the store afterwards holds exactly one record for that
file: its app_name is the application's path, its file_name is the file's
joined path truncated before the first dot (file.split(".")[0] applied to the
full path, not the bare file stem), and its file_content is the JSON
serialization of the file's list of lines. -/
theorem C1_save_record (st : Settings) (fs : FS) (app path file s : String)
    (files : List String)
    (hdir : (app, path) ∈ get_app_migrations_dir st fs)
    (hfiles : get_app_migrations_file fs path = .ok files)
    (hfile : file ∈ files)
    (hread : readFile fs file = .ok s)
    (hnoexc : (save st fs []).2 = none)
    (hnodup : (keysOf (dir_acts fs (get_app_migrations_dir st fs))).Nodup) :
    ((save st fs []).1).filter (keyMatch app (firstSeg file)) =
      [⟨app, firstSeg file, json_dumps (readlines s)⟩] :=
  save_fresh_filter st fs app path file s files hdir hfiles hfile hread hnoexc hnodup

/-- Counterexample to C1 as stated: on a store freshly filled by save, the
single row's file_name is the full joined path truncated before its first dot,
not the file's stem 0001_initial. -/
theorem C1_counterexample :
    (save exampleSettings exampleFS []).1 =
      [⟨"myapp", "/base/myapp/migrations/0001_initial", json_dumps ["x\n"]⟩] ∧
    ((save exampleSettings exampleFS []).1.all
      (fun r => !(r.file_name == "0001_initial"))) = true := by
  exact ⟨rfl, rfl⟩

/-- Witness for C1_save_record on the example project. -/
theorem C1_witness :
    ((save exampleSettings exampleFS []).1).filter
      (keyMatch "myapp" (firstSeg "/base/myapp/migrations/0001_initial.py")) =
      [⟨"myapp", firstSeg "/base/myapp/migrations/0001_initial.py",
        json_dumps (readlines "x\n")⟩] := by
  exact C1_save_record exampleSettings exampleFS "myapp" "/base/myapp/migrations"
    "/base/myapp/migrations/0001_initial.py" "x\n"
    ["/base/myapp/migrations/0001_initial.py"]
    (by decide) rfl (by decide) rfl (by decide) (by decide)

/-- Lookup after a dict assignment. -/
theorem alookup_upsert {β : Type} :
    ∀ (c : List (String × β)) (p q : String) (s : β),
      alookup (upsert c p s) q = if p = q then some s else alookup c q := by
  intro c
  induction c with
  | nil =>
    intro p q s
    by_cases h : p = q <;> simp [upsert, alookup, h]
  | cons pr rest ih =>
    obtain ⟨k0, v0⟩ := pr
    intro p q s
    by_cases hk : k0 = p
    · subst hk
      by_cases hq : k0 = q <;> simp [upsert, alookup, hq]
    · by_cases hq0 : k0 = q
      · subst hq0
        have hpq : ¬(p = k0) := fun h => hk h.symm
        simp [upsert, alookup, hk, hpq]
      · simp [upsert, alookup, hk, hq0, ih]

/-- Lookup through a write sequence: the chronologically last write wins, and
untouched paths keep their previous content. -/
theorem alookup_applyWrites :
    ∀ (ws : List (String × String)) (c : List (String × String)) (p : String),
      alookup (applyWrites c ws) p =
        match lastWrite ws p with
        | some s => some s
        | none => alookup c p := by
  intro ws
  induction ws with
  | nil => intro c p; rfl
  | cons w rest ih =>
    obtain ⟨q, s⟩ := w
    intro c p
    unfold applyWrites lastWrite
    rw [ih (upsert c q s) p]
    cases hl : lastWrite rest p with
    | some x => rfl
    | none =>
      dsimp only
      rw [alookup_upsert]
      by_cases hq : q = p <;> simp [hq]

/-- A recorded last write was indeed one of the writes. -/
theorem lastWrite_mem :
    ∀ (ws : List (String × String)) (t x : String),
      lastWrite ws t = some x → (t, x) ∈ ws := by
  intro ws
  induction ws with
  | nil => intro t x h; exact Option.noConfusion h
  | cons w rest ih =>
    obtain ⟨q, s⟩ := w
    intro t x h
    unfold lastWrite at h
    cases hl : lastWrite rest t with
    | some y =>
      rw [hl] at h
      injection h with h2
      exact h2 ▸ List.mem_cons_of_mem _ (ih t y hl)
    | none =>
      rw [hl] at h
      dsimp only at h
      by_cases hq : (q == t) = true
      · rw [if_pos hq] at h
        injection h with h2
        rw [beq_iff_eq] at hq
        subst hq
        subst h2
        exact List.mem_cons_self _ _
      · rw [if_neg hq] at h
        exact Option.noConfusion h

/-- A path that was written has a last write. -/
theorem lastWrite_isSome_of_mem :
    ∀ (ws : List (String × String)) (t y : String),
      (t, y) ∈ ws → lastWrite ws t ≠ none := by
  intro ws
  induction ws with
  | nil => intro t y h; simp at h
  | cons w rest ih =>
    obtain ⟨q, s⟩ := w
    intro t y hmem
    unfold lastWrite
    cases hl : lastWrite rest t with
    | some x => simp
    | none =>
      dsimp only
      rcases List.mem_cons.mp hmem with h1 | h1
      · injection h1 with hq hs
        subst hq
        rw [if_pos (beq_self_eq_true t)]
        simp
      · exact absurd hl (ih t y h1)

/-- When every write aimed at a path carries the same content, that content is
the final one. -/
theorem lastWrite_all_same :
    ∀ (ws : List (String × String)) (t C : String),
      (t, C) ∈ ws → (∀ w ∈ ws, w.1 = t → w.2 = C) →
      lastWrite ws t = some C := by
  intro ws t C hmem hall
  cases hl : lastWrite ws t with
  | some x =>
    have hx := lastWrite_mem ws t x hl
    exact congrArg some (hall (t, x) hx rfl)
  | none => exact absurd hl (lastWrite_isSome_of_mem ws t C hmem)

/-- Writing files in a fold touches only the content store. -/
theorem foldl_writeFile_contents {α : Type} (fp fc : α → String) :
    ∀ (l : List α) (fs : FS),
      (l.foldl (fun acc x => writeFile acc (fp x) (fc x)) fs).contents =
        applyWrites fs.contents (l.map (fun x => (fp x, fc x))) := by
  intro l
  induction l with
  | nil => intro fs; rfl
  | cons a rest ih =>
    intro fs
    rw [List.foldl_cons, List.map_cons]
    exact ih (writeFile fs (fp a) (fc a))

/-- Writing files in a fold leaves the directory table unchanged. -/
theorem foldl_writeFile_dirs {α : Type} (fp fc : α → String) :
    ∀ (l : List α) (fs : FS),
      (l.foldl (fun acc x => writeFile acc (fp x) (fc x)) fs).dirs = fs.dirs := by
  intro l
  induction l with
  | nil => intro fs; rfl
  | cons a rest ih =>
    intro fs
    rw [List.foldl_cons]
    exact ih (writeFile fs (fp a) (fc a))

/-- Contents after loading one application: its write list is applied. -/
theorem load_app_contents (db : List MigRecord) (app path : String) (fs : FS) :
    (load_app db app path fs).contents =
      applyWrites fs.contents (app_writes db app path) := by
  have h1 : (if os_path_exists fs path then fs else mkdir fs path).contents =
      fs.contents := by
    by_cases h : os_path_exists fs path <;> simp [h, mkdir]
  unfold load_app
  rw [foldl_writeFile_contents]
  unfold app_writes
  show applyWrites (upsert
      (if os_path_exists fs path then fs else mkdir fs path).contents
      (os_path_join path "__init__.py") "") _ = _
  rw [h1]
  rfl

/-- Stage composition for write sequences. -/
theorem applyWrites_append :
    ∀ (w1 w2 : List (String × String)) (c : List (String × String)),
      applyWrites c (w1 ++ w2) = applyWrites (applyWrites c w1) w2 := by
  intro w1
  induction w1 with
  | nil => intro w2 c; rfl
  | cons w rest ih =>
    obtain ⟨p, s⟩ := w
    intro w2 c
    rw [List.cons_append]
    show applyWrites (upsert c p s) (rest ++ w2) =
      applyWrites (applyWrites (upsert c p s) rest) w2
    exact ih w2 (upsert c p s)

/-- Contents after the whole load loop: all writes applied in order. -/
theorem load_dirs_contents (db : List MigRecord) :
    ∀ (dirs : List (String × String)) (fs : FS),
      (load_dirs db dirs fs).contents =
        applyWrites fs.contents (loadWrites db dirs) := by
  intro dirs
  induction dirs with
  | nil => intro fs; rfl
  | cons d rest ih =>
    obtain ⟨app, path⟩ := d
    intro fs
    unfold load_dirs loadWrites
    rw [ih (load_app db app path fs), applyWrites_append, load_app_contents]

/-- Contents after Command.load. -/
theorem load_contents (st : Settings) (fs : FS) (db : List MigRecord) :
    (load st fs db).contents =
      applyWrites fs.contents (loadWrites db (get_app_migrations_dir st fs)) :=
  load_dirs_contents db (get_app_migrations_dir st fs) fs

/-- Lookup in a concatenated association list. -/
theorem alookup_append {β : Type} :
    ∀ (a b : List (String × β)) (q : String),
      alookup (a ++ b) q =
        match alookup a q with
        | some v => some v
        | none => alookup b q := by
  intro a
  induction a with
  | nil => intro b q; rfl
  | cons pr rest ih =>
    obtain ⟨k, v⟩ := pr
    intro b q
    rw [List.cons_append]
    show (if (k == q) = true then some v else alookup (rest ++ b) q) =
      match (if (k == q) = true then some v else alookup rest q) with
      | some v => some v
      | none => alookup b q
    by_cases hk : (k == q) = true
    · rw [if_pos hk, if_pos hk]
    · rw [if_neg hk, if_neg hk, ih]

/-- Writing a file leaves the directory table unchanged. -/
theorem writeFile_dirs (fs : FS) (p c : String) :
    (writeFile fs p c).dirs = fs.dirs := rfl

/-- Loading one application makes its migrations directory exist. -/
theorem load_app_exists_self (db : List MigRecord) (app path : String) (fs : FS) :
    os_path_exists (load_app db app path fs) path = true := by
  unfold load_app
  unfold os_path_exists
  rw [foldl_writeFile_dirs, writeFile_dirs]
  by_cases h : (alookup fs.dirs path).isSome = true
  · rw [if_pos h]
    exact h
  · rw [if_neg h]
    unfold mkdir
    dsimp only
    rw [alookup_append]
    have hn : alookup fs.dirs path = none := by
      cases hx : alookup fs.dirs path with
      | none => rfl
      | some v =>
        rw [hx] at h
        exact absurd rfl h
    rw [hn]
    simp [alookup]

/-- Loading one application keeps every existing directory. -/
theorem load_app_exists_mono (db : List MigRecord) (app path : String) (fs : FS)
    (q : String) (h : os_path_exists fs q = true) :
    os_path_exists (load_app db app path fs) q = true := by
  unfold load_app
  unfold os_path_exists
  rw [foldl_writeFile_dirs, writeFile_dirs]
  unfold os_path_exists at h
  by_cases hp : (alookup fs.dirs path).isSome = true
  · rw [if_pos hp]
    exact h
  · rw [if_neg hp]
    unfold mkdir
    dsimp only
    rw [alookup_append]
    cases hx : alookup fs.dirs q with
    | none =>
      rw [hx] at h
      exact absurd h (by simp)
    | some v => simp

/-- The load loop keeps every existing directory. -/
theorem load_dirs_exists_mono (db : List MigRecord) :
    ∀ (dirs : List (String × String)) (fs : FS) (q : String),
      os_path_exists fs q = true →
      os_path_exists (load_dirs db dirs fs) q = true := by
  intro dirs
  induction dirs with
  | nil => intro fs q h; exact h
  | cons d rest ih =>
    obtain ⟨a0, p0⟩ := d
    intro fs q h
    exact ih (load_app db a0 p0 fs) q (load_app_exists_mono db a0 p0 fs q h)

/-- After the load loop every listed migrations directory exists. -/
theorem load_dirs_exists (db : List MigRecord) :
    ∀ (dirs : List (String × String)) (fs : FS) (app path : String),
      (app, path) ∈ dirs →
      os_path_exists (load_dirs db dirs fs) path = true := by
  intro dirs
  induction dirs with
  | nil => intro fs app path h; simp at h
  | cons d rest ih =>
    obtain ⟨a0, p0⟩ := d
    intro fs app path hmem
    rcases List.mem_cons.mp hmem with h1 | h1
    · injection h1 with ha hp
      subst hp
      exact load_dirs_exists_mono db rest _ path (load_app_exists_self db a0 path fs)
    · exact ih (load_app db a0 p0 fs) app path h1

/-- Concatenating the lines readlines produced restores the characters. -/
theorem readlinesCh_join : ∀ cs : List Char, (readlinesCh cs).flatten = cs := by
  intro cs
  induction cs with
  | nil => rfl
  | cons c rest ih =>
    unfold readlinesCh
    by_cases hc : c = '\n'
    · rw [if_pos hc, List.flatten_cons, ih]
      subst hc
      rfl
    · rw [if_neg hc]
      cases hr : readlinesCh rest with
      | nil =>
        rw [hr] at ih
        have hrest : rest = [] := by simpa using ih.symm
        subst hrest
        simp
      | cons l ls =>
        rw [hr] at ih
        dsimp only
        rw [List.flatten_cons, List.cons_append]
        rw [List.flatten_cons] at ih
        rw [ih]

/-- Appending strings is appending their characters. -/
theorem mk_append (a b : List Char) :
    String.mk a ++ String.mk b = String.mk (a ++ b) := rfl

/-- Rebuilding a string from its characters. -/
theorem mk_data (s : String) : String.mk s.data = s := rfl

/-- Concatenating packed character lists. -/
theorem strJoin_map_mk : ∀ ls : List (List Char),
    strJoin (ls.map String.mk) = String.mk ls.flatten := by
  intro ls
  induction ls with
  | nil => rfl
  | cons a rest ih =>
    rw [List.map_cons]
    unfold strJoin
    rw [ih, mk_append, List.flatten_cons]

/-- Round trip: concatenating the lines of a file restores its content. -/
theorem strJoin_readlines (s : String) : strJoin (readlines s) = s := by
  unfold readlines
  rw [strJoin_map_mk, readlinesCh_join, mk_data]

/-- Appending the empty string. -/
theorem append_empty_str (s : String) : s ++ "" = s := by
  apply String.ext
  rw [String.data_append]
  exact List.append_nil _

/-- Sequential writes produce the header followed by the concatenated lines. -/
theorem writeAll_eq : ∀ (lines : List String) (first : String),
    writeAll first lines = first ++ strJoin lines := by
  intro lines
  induction lines with
  | nil =>
    intro first
    show first = first ++ ""
    rw [append_empty_str]
  | cons l rest ih =>
    intro first
    show writeAll (first ++ l) rest = first ++ (l ++ strJoin rest)
    rw [ih (first ++ l), String.append_assoc]

/-- The package-marker write is among the writes of its application. -/
theorem mem_app_writes_marker (db : List MigRecord) (app path : String) :
    (os_path_join path "__init__.py", "") ∈ app_writes db app path :=
  List.mem_cons_self _ _

/-- Every stored row of an application contributes its write. -/
theorem mem_app_writes_row (db : List MigRecord) (app path : String)
    (r : MigRecord) (hr : r ∈ db) (ha : r.app_name = app) :
    (os_path_join path (r.file_name ++ ".py"),
      writeAll "# coding:utf-8\n" (json_loads r.file_content)) ∈
      app_writes db app path := by
  unfold app_writes
  apply List.mem_cons_of_mem
  apply List.mem_map_of_mem
  rw [List.mem_filter]
  exact ⟨hr, by simp [ha]⟩

/-- Writes of a listed application are among the writes of the whole load. -/
theorem mem_loadWrites (db : List MigRecord) :
    ∀ (dirs : List (String × String)) (app path : String) (w : String × String),
      (app, path) ∈ dirs → w ∈ app_writes db app path →
      w ∈ loadWrites db dirs := by
  intro dirs
  induction dirs with
  | nil => intro app path w h _; simp at h
  | cons d rest ih =>
    obtain ⟨a0, p0⟩ := d
    intro app path w hmem hw
    unfold loadWrites
    rcases List.mem_cons.mp hmem with h1 | h1
    · injection h1 with ha hp
      subst ha
      subst hp
      exact List.mem_append_left _ hw
    · exact List.mem_append_right _ (ih app path w h1 hw)

/-- C4: for each installed application whose app directory exists, load leaves
the migrations directory existing (creating it when absent), performs the
empty package-marker write and, for every stored record of that application,
a write to os.path.join of the directory and file_name + ".py" whose content
is the encoding header followed by the record's stored lines; whenever no
other write aims at the same target, that content is the file's final one. -/
theorem C4_load (st : Settings) (fs : FS) (db : List MigRecord)
    (app path : String)
    (hdir : (app, path) ∈ get_app_migrations_dir st fs) :
    os_path_exists (load st fs db) path = true ∧
    ((os_path_join path "__init__.py", "") ∈
      loadWrites db (get_app_migrations_dir st fs)) ∧
    ((∀ w ∈ loadWrites db (get_app_migrations_dir st fs),
        w.1 = os_path_join path "__init__.py" → w.2 = "") →
      alookup (load st fs db).contents (os_path_join path "__init__.py") =
        some "") ∧
    (∀ r ∈ db, r.app_name = app →
      ((os_path_join path (r.file_name ++ ".py"),
        "# coding:utf-8\n" ++ strJoin (json_loads r.file_content)) ∈
        loadWrites db (get_app_migrations_dir st fs)) ∧
      ((∀ w ∈ loadWrites db (get_app_migrations_dir st fs),
          w.1 = os_path_join path (r.file_name ++ ".py") →
          w.2 = "# coding:utf-8\n" ++ strJoin (json_loads r.file_content)) →
        alookup (load st fs db).contents
          (os_path_join path (r.file_name ++ ".py")) =
          some ("# coding:utf-8\n" ++ strJoin (json_loads r.file_content)))) := by
  refine ⟨?_, ?_, ?_, ?_⟩
  · exact load_dirs_exists db _ fs app path hdir
  · exact mem_loadWrites db _ app path _ hdir (mem_app_writes_marker db app path)
  · intro hall
    rw [load_contents, alookup_applyWrites,
      lastWrite_all_same _ _ _
        (mem_loadWrites db _ app path _ hdir (mem_app_writes_marker db app path))
        hall]
  · intro r hr ha
    have hmemw : (os_path_join path (r.file_name ++ ".py"),
        "# coding:utf-8\n" ++ strJoin (json_loads r.file_content)) ∈
        loadWrites db (get_app_migrations_dir st fs) := by
      have h0 := mem_loadWrites db _ app path _ hdir
        (mem_app_writes_row db app path r hr ha)
      rwa [writeAll_eq] at h0
    refine ⟨hmemw, ?_⟩
    intro hall
    rw [load_contents, alookup_applyWrites, lastWrite_all_same _ _ _ hmemw hall]

/-- Witness for C4_load: one application, one stored record named 0001. -/
theorem C4_witness :
    os_path_exists (load exampleSettings exampleFS
      [⟨"myapp", "0001", json_dumps ["x\n"]⟩]) "/base/myapp/migrations" = true ∧
    alookup (load exampleSettings exampleFS
        [⟨"myapp", "0001", json_dumps ["x\n"]⟩]).contents
      (os_path_join "/base/myapp/migrations" "__init__.py") = some "" ∧
    alookup (load exampleSettings exampleFS
        [⟨"myapp", "0001", json_dumps ["x\n"]⟩]).contents
      (os_path_join "/base/myapp/migrations" ("0001" ++ ".py")) =
      some ("# coding:utf-8\n" ++ strJoin (json_loads (json_dumps ["x\n"]))) := by
  refine ⟨?_, ?_, ?_⟩
  · exact (C4_load exampleSettings exampleFS _ "myapp" "/base/myapp/migrations"
      (by decide)).1
  · exact (C4_load exampleSettings exampleFS _ "myapp" "/base/myapp/migrations"
      (by decide)).2.2.1 (by decide)
  · exact ((C4_load exampleSettings exampleFS _ "myapp" "/base/myapp/migrations"
      (by decide)).2.2.2 ⟨"myapp", "0001", json_dumps ["x\n"]⟩
      (by decide) rfl).2 (by decide)

/-- C2: a migration file first stored by save (fresh store, no exception,
pairwise distinct keys) and later written back by load produces exactly the
encoding header line followed by the original file content: the write load
performs for the stored record carries "# coding:utf-8\n" ++ s, and when no
other write aims at the same target this is the final file content, so
save-then-load round-trips the line list verbatim apart from the header. -/
theorem C2_save_load_roundtrip (st st2 : Settings) (fs fs2 : FS)
    (app path path2 file s : String) (files : List String)
    (hdir : (app, path) ∈ get_app_migrations_dir st fs)
    (hfiles : get_app_migrations_file fs path = .ok files)
    (hfile : file ∈ files)
    (hread : readFile fs file = .ok s)
    (hnoexc : (save st fs []).2 = none)
    (hnodup : (keysOf (dir_acts fs (get_app_migrations_dir st fs))).Nodup)
    (hdir2 : (app, path2) ∈ get_app_migrations_dir st2 fs2) :
    ((os_path_join path2 (firstSeg file ++ ".py"), "# coding:utf-8\n" ++ s) ∈
      loadWrites (save st fs []).1 (get_app_migrations_dir st2 fs2)) ∧
    ((∀ w ∈ loadWrites (save st fs []).1 (get_app_migrations_dir st2 fs2),
        w.1 = os_path_join path2 (firstSeg file ++ ".py") →
        w.2 = "# coding:utf-8\n" ++ s) →
      alookup (load st2 fs2 (save st fs []).1).contents
        (os_path_join path2 (firstSeg file ++ ".py")) =
        some ("# coding:utf-8\n" ++ s)) := by
  have hfil := save_fresh_filter st fs app path file s files hdir hfiles hfile
    hread hnoexc hnodup
  have hrmem : (⟨app, firstSeg file, json_dumps (readlines s)⟩ : MigRecord) ∈
      (save st fs []).1 := by
    apply List.mem_of_mem_filter (p := keyMatch app (firstSeg file))
    rw [hfil]
    exact List.mem_cons_self _ _
  have hw := mem_loadWrites (save st fs []).1 _ app path2 _ hdir2
    (mem_app_writes_row (save st fs []).1 app path2 _ hrmem rfl)
  rw [writeAll_eq] at hw
  have hjl : json_loads ((⟨app, firstSeg file,
      json_dumps (readlines s)⟩ : MigRecord).file_content) = readlines s := rfl
  rw [hjl, strJoin_readlines] at hw
  refine ⟨hw, ?_⟩
  intro hall
  rw [load_contents, alookup_applyWrites, lastWrite_all_same _ _ _ hw hall]

/-- Witness for C2_save_load_roundtrip: saving the example project and loading
back into the same tree writes /base/myapp/migrations/0001_initial.py with the
header followed by the original content. -/
theorem C2_witness :
    alookup (load exampleSettings exampleFS
        (save exampleSettings exampleFS []).1).contents
      (os_path_join "/base/myapp/migrations"
        (firstSeg "/base/myapp/migrations/0001_initial.py" ++ ".py")) =
      some ("# coding:utf-8\n" ++ "x\n") := by
  exact (C2_save_load_roundtrip exampleSettings exampleSettings exampleFS
    exampleFS "myapp" "/base/myapp/migrations" "/base/myapp/migrations"
    "/base/myapp/migrations/0001_initial.py" "x\n"
    ["/base/myapp/migrations/0001_initial.py"]
    (by decide) rfl (by decide) rfl (by decide) (by decide) (by decide)).2
    (by decide)

end Celebi

example : Celebi.readlines "a\nb" = ["a\n", "b"] := rfl

example : Celebi.os_path_join "/base/app" "migrations" = "/base/app/migrations" := rfl

example : Celebi.os_path_join "x/y" "/abs/p" = "/abs/p" := rfl

example : Celebi.firstSeg "/base/myapp/migrations/0001_initial.py" = "/base/myapp/migrations/0001_initial" := rfl

example : Celebi.lastSeg "a.b.pyc" = "pyc" := rfl

example : Celebi.lastSeg "pyc" = "pyc" := rfl
